import Mathlib

/-!
Shallow embedding of `consistent-hasher.h` (a header-only C99 consistent
hashing library) and a verification of its specification claims.

Modelling conventions:

* C `unsigned int` hash values and positions are modelled as `Nat`; the only
  arithmetic performed on them by the library is `%` and comparisons, so no
  wrap-around behaviour is observable.
* The C `int` variables `start`, `end`, `mid`, `index` and the loop counters
  are modelled as `Int`, and C integer division (truncation towards zero) as
  `Int.tdiv`.
* The backing array is modelled with all of its allocated slots
  (`nodes.length = nodes_capacity` in well-formed states) because the code
  observes slots beyond `nodes_len`: `calloc` produces zeroed slots
  (`zeroNode`) and the shifting loops leave stale entries behind.
* `allocated` models whether the C `nodes` pointer is non-NULL.  `calloc` is
  modelled as always succeeding and returning a zeroed buffer of the
  requested size, non-NULL even for size 0 (as on glibc); allocation failure
  paths are therefore never taken in the model.
* Reads out of the modelled buffer use `List.getD` with `zeroNode` as the
  default.  A read beyond `nodes.length` would be undefined behaviour in C;
  all theorems below only depend on reads within the allocated buffer.
* The C loops are written as structurally recursive functions over an
  explicit fuel argument.  Every call site passes fuel that is at least the
  number of iterations the C loop performs, so the fuel-exhausted branch is
  never taken at any call site appearing in the theorems.
-/

/-- Model of `ConsistentHasherNode`: the caller-supplied hash of the node and
its derived position `hash % ring_size` on the ring. -/
structure ConsistentHasherNode where
  hash : Nat
  position : Nat
deriving DecidableEq

/-- Model of the `ConsistentHasherError` enumeration of the header. -/
inductive ConsistentHasherError where
  | OK
  | IS_NULL
  | ALLOCATION
  | NODE_PRESENT
deriving DecidableEq

/-- Default value of the `CONSISTENT_HASHER_INITIAL_CAPACITY` configuration
macro (8 in the header). -/
def CONSISTENT_HASHER_INITIAL_CAPACITY : Nat := 8

/-- A zeroed node, the content of freshly `calloc`ed slots. -/
def zeroNode : ConsistentHasherNode := { hash := 0, position := 0 }

/-- Model of the `ConsistentHasher` struct.  `nodes` is the backing buffer
including slots beyond `nodes_len`; `allocated` is whether the C `nodes`
pointer is non-NULL. -/
structure ConsistentHasher where
  ring_size : Nat
  nodes : List ConsistentHasherNode
  nodes_len : Nat
  nodes_capacity : Nat
  allocated : Bool
deriving DecidableEq

/-- `consistent_hasher_init`: builds the empty ring.  The C function takes a
pointer and returns `void`; the model returns the initialized struct.  Note
that `ring_size` is stored unchecked, `ring_size = 0` included. -/
def consistent_hasher_init (ring_size : Nat) : ConsistentHasher :=
  { ring_size := ring_size, nodes := [], nodes_len := 0, nodes_capacity := 0, allocated := false }

/-- The `while (end >= start)` loop of `_consistent_hasher_binary_search`.
`start`/`stop` are the C `int` variables `start`/`end`; `mid` is recomputed
exactly as in the source, `(end - start) / 2 + start` with truncated
division.  On a match the C code stores `start` (not `mid`) into `*index`
and returns true; on exhaustion it stores the final `mid`.  The fuel is
never exhausted at the call sites used below (the window shrinks every
iteration and callers pass `nodes_len + 1`). -/
def binarySearchLoop (nodes : List ConsistentHasherNode) (position : Nat) :
    Nat → Int → Int → Bool × Int
  | 0, start, stop => (false, Int.tdiv (stop - start) 2 + start)
  | fuel + 1, start, stop =>
    if stop ≥ start then
      if (nodes.getD (Int.tdiv (stop - start) 2 + start).toNat zeroNode).position = position then
        (true, start)
      else if (nodes.getD (Int.tdiv (stop - start) 2 + start).toNat zeroNode).position > position then
        binarySearchLoop nodes position fuel start (Int.tdiv (stop - start) 2 + start - 1)
      else
        binarySearchLoop nodes position fuel (Int.tdiv (stop - start) 2 + start + 1) stop
    else (false, Int.tdiv (stop - start) 2 + start)

/-- Model of `_consistent_hasher_binary_search`: searches for
`node_hash % ring_size` over `nodes[0 .. nodes_len-1]`.  Returns the C
`bool` result together with the value stored through the `index` out
parameter. -/
def consistent_hasher_binary_search (ch : ConsistentHasher) (node_hash : Nat) : Bool × Int :=
  binarySearchLoop ch.nodes (node_hash % ch.ring_size) (ch.nodes_len + 1) 0 ((ch.nodes_len : Int) - 1)

/-- The descending in-place shift loop of `consistent_hasher_insert_node`:
`for (i = nodes_len - 1; i > index + 1; --i) nodes[i] = nodes[i - 1];`.
Each iteration reads a slot that has not been written yet, so the in-place
loop is a pure transformation of the buffer. -/
def insertShiftLoop (index : Int) : Nat → Int → List ConsistentHasherNode → List ConsistentHasherNode
  | 0, _, buf => buf
  | fuel + 1, i, buf =>
    if i > index + 1 then
      insertShiftLoop index fuel (i - 1) (buf.set i.toNat (buf.getD (i - 1).toNat zeroNode))
    else buf

/-- The copy loop on the resize path of `consistent_hasher_insert_node`:
`for (i = 0; i < capacity; ++i) new[(i >= index && i < capacity) ? i+1 : i] = old[i];`. -/
def insertCopyLoop (old : List ConsistentHasherNode) (index : Int) (cap : Nat) :
    Nat → Nat → List ConsistentHasherNode → List ConsistentHasherNode
  | 0, _, new => new
  | fuel + 1, i, new =>
    if i < cap then
      insertCopyLoop old index cap fuel (i + 1)
        (new.set (if (i : Int) ≥ index ∧ i < cap then i + 1 else i) (old.getD i zeroNode))
    else new

/-- The ascending in-place shift loop of `consistent_hasher_delete_node`:
`for (i = index; i < nodes_len - 2; ++i) nodes[i] = nodes[i + 1];`. -/
def deleteShiftLoop (len : Int) : Nat → Int → List ConsistentHasherNode → List ConsistentHasherNode
  | 0, _, buf => buf
  | fuel + 1, i, buf =>
    if i < len - 2 then
      deleteShiftLoop len fuel (i + 1) (buf.set i.toNat (buf.getD (i + 1).toNat zeroNode))
    else buf

/-- The copy loop on the shrink path of `consistent_hasher_delete_node`:
`for (i = 0; i < nodes_len - 1; ++i) new[i] = old[(i < index) ? i : i + 1];`. -/
def shrinkCopyLoop (old : List ConsistentHasherNode) (index : Int) (count : Nat) :
    Nat → Nat → List ConsistentHasherNode → List ConsistentHasherNode
  | 0, _, new => new
  | fuel + 1, i, new =>
    if i < count then
      shrinkCopyLoop old index count fuel (i + 1)
        (new.set i (old.getD (if (i : Int) < index then i else i + 1) zeroNode))
    else new

/-- Model of `consistent_hasher_insert_node` for a non-NULL `ch`. -/
def consistent_hasher_insert_node (ch : ConsistentHasher) (node_hash : Nat) :
    ConsistentHasherError × ConsistentHasher :=
  let new_node : ConsistentHasherNode := { hash := node_hash, position := node_hash % ch.ring_size }
  if ch.allocated = false then
    (ConsistentHasherError.OK,
      { ch with
          nodes := (List.replicate CONSISTENT_HASHER_INITIAL_CAPACITY zeroNode).set 0 new_node,
          nodes_capacity := CONSISTENT_HASHER_INITIAL_CAPACITY,
          nodes_len := 1,
          allocated := true })
  else
    let r := consistent_hasher_binary_search ch node_hash
    if r.1 = true then (ConsistentHasherError.NODE_PRESENT, ch)
    else if ch.nodes_capacity = ch.nodes_len then
      let new_capacity := ch.nodes_capacity * 2
      let copied := insertCopyLoop ch.nodes r.2 ch.nodes_capacity ch.nodes_capacity 0
        (List.replicate new_capacity zeroNode)
      (ConsistentHasherError.OK,
        { ch with
            nodes := copied.set r.2.toNat new_node,
            nodes_capacity := new_capacity,
            nodes_len := ch.nodes_len + 1 })
    else
      (ConsistentHasherError.OK,
        { ch with
            nodes := (insertShiftLoop r.2 ch.nodes_len ((ch.nodes_len : Int) - 1) ch.nodes).set
              r.2.toNat new_node,
            nodes_len := ch.nodes_len + 1 })

/-- Model of `consistent_hasher_delete_node` for a non-NULL `ch`.  The Nat
subtractions `nodes_len - 1` only occur on the found path, where
`nodes_len ≥ 1`, so they agree with the C `int` arithmetic. -/
def consistent_hasher_delete_node (ch : ConsistentHasher) (node_hash : Nat) :
    ConsistentHasherError × ConsistentHasher :=
  let r := consistent_hasher_binary_search ch node_hash
  if r.1 = false then (ConsistentHasherError.OK, ch)
  else if (ch.nodes_len : Int) - 1 = Int.tdiv (ch.nodes_capacity : Int) 2 then
    let count := ((ch.nodes_len : Int) - 1).toNat
    (ConsistentHasherError.OK,
      { ch with
          nodes := shrinkCopyLoop ch.nodes r.2 count count 0 (List.replicate count zeroNode),
          nodes_len := ch.nodes_len - 1,
          nodes_capacity := ch.nodes_len - 1 })
  else
    (ConsistentHasherError.OK,
      { ch with
          nodes := deleteShiftLoop (ch.nodes_len : Int) ch.nodes_len r.2 ch.nodes,
          nodes_len := ch.nodes_len - 1 })

/-- Model of `consistent_hasher_get_node_of`.  The C code reads
`nodes[index]` unconditionally; the spec declares the operation undefined on
an empty ring. -/
def consistent_hasher_get_node_of (ch : ConsistentHasher) (item_hash : Nat) : Nat :=
  let r := consistent_hasher_binary_search ch item_hash
  let index : Int :=
    if item_hash % ch.ring_size > (ch.nodes.getD r.2.toNat zeroNode).position then 0 else r.2
  (ch.nodes.getD index.toNat zeroNode).hash

/-- One mutating operation on the ring, used to express reachability. -/
inductive RingOp where
  | insert (node_hash : Nat)
  | delete (node_hash : Nat)
deriving DecidableEq

/-- Run a sequence of mutating operations, discarding the error codes (as
the example code in the header does). -/
def runOps (ch : ConsistentHasher) : List RingOp → ConsistentHasher
  | [] => ch
  | RingOp.insert h :: rest => runOps (consistent_hasher_insert_node ch h).2 rest
  | RingOp.delete h :: rest => runOps (consistent_hasher_delete_node ch h).2 rest

/-- A state is reachable when some finite sequence of inserts and deletes
produces it from the freshly initialized ring. -/
def Reachable (ring_size : Nat) (ch : ConsistentHasher) : Prop :=
  ∃ ops : List RingOp, runOps (consistent_hasher_init ring_size) ops = ch

/-- The sortedness invariant of the store: strictly ascending positions over
the first `nodes_len` entries of the buffer. -/
def SortedNodes (ch : ConsistentHasher) : Prop :=
  ∀ i : Nat, i < ch.nodes_len → ∀ j : Nat, j < i →
    (ch.nodes.getD j zeroNode).position < (ch.nodes.getD i zeroNode).position

/-- Well-formedness of a ring value: the modelled buffer has exactly the
allocated capacity, the tracked length fits in it, an unallocated ring is
the empty one, and an allocated buffer has at least one slot. -/
def RingWF (ch : ConsistentHasher) : Prop :=
  ch.nodes.length = ch.nodes_capacity ∧
  ch.nodes_len ≤ ch.nodes_capacity ∧
  (ch.allocated = false → ch.nodes_len = 0 ∧ ch.nodes_capacity = 0) ∧
  (ch.allocated = true → 1 ≤ ch.nodes_capacity)

instance (ch : ConsistentHasher) : Decidable (SortedNodes ch) :=
  decidable_of_iff (∀ i : Nat, i < ch.nodes_len → ∀ j : Nat, j < i →
    (ch.nodes.getD j zeroNode).position < (ch.nodes.getD i zeroNode).position) Iff.rfl

instance (ch : ConsistentHasher) : Decidable (RingWF ch) :=
  decidable_of_iff (ch.nodes.length = ch.nodes_capacity ∧
    ch.nodes_len ≤ ch.nodes_capacity ∧
    (ch.allocated = false → ch.nodes_len = 0 ∧ ch.nodes_capacity = 0) ∧
    (ch.allocated = true → 1 ≤ ch.nodes_capacity)) Iff.rfl

/-- The inductive capacity invariant actually maintained by the code: the
modelled buffer has exactly the allocated capacity, the tracked length fits
in the capacity unless the capacity has degenerated to zero, and an
unallocated ring is empty.  (The stronger `nodes_len ≤ nodes_capacity` is
not inductive: shrinking a one-node ring reallocates with `calloc(0)` and
the following insert doubles the capacity to `0 * 2 = 0`.) -/
def CapInv (ch : ConsistentHasher) : Prop :=
  ch.nodes.length = ch.nodes_capacity ∧
  (ch.nodes_len ≤ ch.nodes_capacity ∨ ch.nodes_capacity = 0) ∧
  (ch.allocated = false → ch.nodes_len = 0 ∧ ch.nodes_capacity = 0)

/-- Guarded derived-position computation: the position `hash % ring_size`
when the modulus is positive, and an error value when `ring_size = 0` (the
case in which the C expression divides by zero).  The library itself
performs the modulo unguarded; this definition exists to state that the
error branch is unreachable once `ring_size > 0`. -/
def derivedPosition (node_hash ring_size : Nat) : Option Nat :=
  if ring_size = 0 then none else some (node_hash % ring_size)

/-- Reading a slot a `set` just wrote yields the written value when the
index is within the buffer. -/
lemma getD_set_self (l : List ConsistentHasherNode) (i : Nat) (a d : ConsistentHasherNode)
    (h : i < l.length) : (l.set i a).getD i d = a := by
  simp [List.getD_eq_getElem?_getD, List.getElem?_set_self, h]

/-- Reading any other slot of a buffer after a `set` is unchanged. -/
lemma getD_set_other (l : List ConsistentHasherNode) (i j : Nat) (a d : ConsistentHasherNode)
    (h : i ≠ j) : (l.set i a).getD j d = l.getD j d := by
  simp [List.getD_eq_getElem?_getD, List.getElem?_set_ne h]

/-- Truncated division of a nonnegative int by two is nonnegative. -/
lemma tdiv_two_nonneg {d : Int} (hd : 0 ≤ d) : 0 ≤ Int.tdiv d 2 := by
  obtain ⟨n, rfl⟩ := Int.eq_ofNat_of_zero_le hd
  have h1 : Int.tdiv (n : Int) 2 = ((n / 2 : Nat) : Int) := rfl
  rw [h1]
  exact Int.ofNat_nonneg _

/-- Doubling the truncated half of a nonnegative int stays below it. -/
lemma two_mul_tdiv_two_le {d : Int} (hd : 0 ≤ d) : 2 * Int.tdiv d 2 ≤ d := by
  obtain ⟨n, rfl⟩ := Int.eq_ofNat_of_zero_le hd
  have h1 : Int.tdiv (n : Int) 2 = ((n / 2 : Nat) : Int) := rfl
  rw [h1]
  have := Nat.div_mul_le_self n 2
  omega

/-- The midpoint value computed when the search window is exhausted with
`stop = start - 1`, as happens at every loop exit, equals `start`. -/
lemma tdiv_neg_one : Int.tdiv (-1) 2 = 0 := by decide

/-- Soundness of the search loop: whenever it reports `true` the probed
entry is a genuine match among the first `len` slots.  No sortedness is
assumed. -/
lemma bs_found_exists (nodes : List ConsistentHasherNode) (p : Nat) (len : Nat) :
    ∀ fuel : Nat, ∀ start stop : Int, 0 ≤ start → stop ≤ (len : Int) - 1 →
    (binarySearchLoop nodes p fuel start stop).1 = true →
    ∃ j : Nat, j < len ∧ (nodes.getD j zeroNode).position = p := by
  intro fuel
  induction fuel with
  | zero =>
    intro start stop _ _ h
    simp [binarySearchLoop] at h
  | succ fuel ih =>
    intro start stop h0 hlen h
    simp only [binarySearchLoop] at h
    split at h
    · rename_i hss
      have hd0 : (0 : Int) ≤ stop - start := by omega
      have hd1 := tdiv_two_nonneg hd0
      have hd2 := two_mul_tdiv_two_le hd0
      split at h
      · rename_i heq
        refine ⟨(Int.tdiv (stop - start) 2 + start).toNat, ?_, heq⟩
        omega
      · split at h
        · refine ih start (Int.tdiv (stop - start) 2 + start - 1) h0 (by omega) h
        · refine ih (Int.tdiv (stop - start) 2 + start + 1) stop (by omega) hlen h
    · simp at h

/-- Characterization of the search loop on a strictly sorted window when the
target position is absent: it reports `false` together with the lower-bound
insertion index, the unique `k` with everything below `k` smaller than `p`
and everything from `k` on larger than `p`. -/
lemma bs_miss_char (nodes : List ConsistentHasherNode) (p : Nat) (len : Nat)
    (hsort : ∀ i : Nat, i < len → ∀ j : Nat, j < i →
      (nodes.getD j zeroNode).position < (nodes.getD i zeroNode).position)
    (habs : ∀ j : Nat, j < len → (nodes.getD j zeroNode).position ≠ p) :
    ∀ fuel : Nat, ∀ start stop : Int,
    (stop + 1 - start).toNat < fuel → 0 ≤ start → start ≤ stop + 1 → stop ≤ (len : Int) - 1 →
    (∀ j : Nat, (j : Int) < start → j < len → (nodes.getD j zeroNode).position < p) →
    (∀ j : Nat, stop < (j : Int) → j < len → p < (nodes.getD j zeroNode).position) →
    ∃ k : Int, binarySearchLoop nodes p fuel start stop = (false, k) ∧ 0 ≤ k ∧ k ≤ (len : Int) ∧
      (∀ j : Nat, (j : Int) < k → j < len → (nodes.getD j zeroNode).position < p) ∧
      (∀ j : Nat, k ≤ (j : Int) → j < len → p < (nodes.getD j zeroNode).position) := by
  intro fuel
  induction fuel with
  | zero =>
    intro start stop hf _ _ _ _ _
    omega
  | succ fuel ih =>
    intro start stop hf h0 hs1 hlen inv1 inv2
    by_cases hss : stop ≥ start
    · have hd0 : (0 : Int) ≤ stop - start := by omega
      have hd1 := tdiv_two_nonneg hd0
      have hd2 := two_mul_tdiv_two_le hd0
      have hmidlen : (Int.tdiv (stop - start) 2 + start).toNat < len := by omega
      by_cases heq : (nodes.getD (Int.tdiv (stop - start) 2 + start).toNat zeroNode).position = p
      · exact absurd heq (habs _ hmidlen)
      · by_cases hgt :
          (nodes.getD (Int.tdiv (stop - start) 2 + start).toNat zeroNode).position > p
        · have inv2' : ∀ j : Nat, Int.tdiv (stop - start) 2 + start - 1 < (j : Int) → j < len →
              p < (nodes.getD j zeroNode).position := by
            intro j hj hjlen
            by_cases hjs : stop < (j : Int)
            · exact inv2 j hjs hjlen
            · by_cases hjm : (j : Int) = Int.tdiv (stop - start) 2 + start
              · have : j = (Int.tdiv (stop - start) 2 + start).toNat := by omega
                rw [this]; exact hgt
              · have hlt : (Int.tdiv (stop - start) 2 + start).toNat < j := by omega
                exact lt_trans hgt (hsort j hjlen _ hlt)
          obtain ⟨k, hk, hk0, hklen, hkc1, hkc2⟩ :=
            ih start (Int.tdiv (stop - start) 2 + start - 1) (by omega) h0 (by omega)
              (by omega) inv1 inv2'
          refine ⟨k, ?_, hk0, hklen, hkc1, hkc2⟩
          simp only [binarySearchLoop]
          rw [if_pos hss, if_neg heq, if_pos hgt]
          exact hk
        · have hlt : (nodes.getD (Int.tdiv (stop - start) 2 + start).toNat zeroNode).position < p := by
            omega
          have inv1' : ∀ j : Nat, (j : Int) < Int.tdiv (stop - start) 2 + start + 1 → j < len →
              (nodes.getD j zeroNode).position < p := by
            intro j hj hjlen
            by_cases hjm : (j : Int) = Int.tdiv (stop - start) 2 + start
            · have : j = (Int.tdiv (stop - start) 2 + start).toNat := by omega
              rw [this]; exact hlt
            · by_cases hjs : (j : Int) < start
              · exact inv1 j hjs hjlen
              · have hjlt : j < (Int.tdiv (stop - start) 2 + start).toNat := by omega
                exact lt_trans (hsort _ hmidlen j hjlt) hlt
          obtain ⟨k, hk, hk0, hklen, hkc1, hkc2⟩ :=
            ih (Int.tdiv (stop - start) 2 + start + 1) stop (by omega) (by omega) (by omega)
              hlen inv1' inv2
          refine ⟨k, ?_, hk0, hklen, hkc1, hkc2⟩
          simp only [binarySearchLoop]
          rw [if_pos hss, if_neg heq, if_neg hgt]
          exact hk
    · have hstop : stop - start = -1 := by omega
      refine ⟨start, ?_, h0, by omega, ?_, ?_⟩
      · simp only [binarySearchLoop]
        rw [if_neg hss, hstop, tdiv_neg_one]
        norm_num
      · intro j hj hjlen
        exact inv1 j hj hjlen
      · intro j hj hjlen
        exact inv2 j (by omega) hjlen

/-- The search loop reports `true` whenever the window contains an index
`idx` holding the target, everything left of `idx` is smaller, and
everything right of `idx` up to the window end is larger except possibly one
index `L` beyond `idx` that the loop provably never probes (`L` models the
stale slot `nodes[nodes_len]` read after the buggy shift).  This covers both
fully sorted buffers (choose `L` past the window) and the partially sorted
buffers produced by the insert shift path. -/
lemma bs_finds_at (nodes : List ConsistentHasherNode) (p : Nat) :
    ∀ fuel : Nat, ∀ start stop idx L : Int,
    (stop + 1 - start).toNat < fuel → 0 ≤ start → start ≤ idx → idx ≤ stop → stop ≤ L → idx < L →
    (∀ j : Nat, (j : Int) < idx → (nodes.getD j zeroNode).position < p) →
    (nodes.getD idx.toNat zeroNode).position = p →
    (∀ j : Nat, idx < (j : Int) → (j : Int) ≤ stop → (j : Int) ≠ L →
      p < (nodes.getD j zeroNode).position) →
    (binarySearchLoop nodes p fuel start stop).1 = true := by
  intro fuel
  induction fuel with
  | zero =>
    intro start stop idx L hf h0 hsi his hsl hil _ _ _
    omega
  | succ fuel ih =>
    intro start stop idx L hf h0 hsi his hsl hil h1 h2 h3
    have hss : stop ≥ start := by omega
    have hd0 : (0 : Int) ≤ stop - start := by omega
    have hd1 := tdiv_two_nonneg hd0
    have hd2 := two_mul_tdiv_two_le hd0
    have hmidL : Int.tdiv (stop - start) 2 + start < L := by omega
    by_cases heq : (nodes.getD (Int.tdiv (stop - start) 2 + start).toNat zeroNode).position = p
    · simp only [binarySearchLoop]
      rw [if_pos hss, if_pos heq]
    · by_cases hml : Int.tdiv (stop - start) 2 + start < idx
      · have hlt : (nodes.getD (Int.tdiv (stop - start) 2 + start).toNat zeroNode).position < p :=
          h1 _ (by omega)
        have hgt : ¬ (nodes.getD (Int.tdiv (stop - start) 2 + start).toNat zeroNode).position > p := by
          omega
        simp only [binarySearchLoop]
        rw [if_pos hss, if_neg heq, if_neg hgt]
        exact ih (Int.tdiv (stop - start) 2 + start + 1) stop idx L (by omega) (by omega)
          (by omega) his hsl hil h1 h2 h3
      · by_cases hmi : Int.tdiv (stop - start) 2 + start = idx
        · exfalso
          apply heq
          have : (Int.tdiv (stop - start) 2 + start).toNat = idx.toNat := by omega
          rw [this]
          exact h2
        · have hgt : p < (nodes.getD (Int.tdiv (stop - start) 2 + start).toNat zeroNode).position := by
            have := h3 (Int.tdiv (stop - start) 2 + start).toNat (by omega) (by omega) (by omega)
            exact this
          simp only [binarySearchLoop]
          rw [if_pos hss, if_neg heq, if_pos hgt]
          refine ih start (Int.tdiv (stop - start) 2 + start - 1) idx L (by omega) h0 hsi
            (by omega) (by omega) hil h1 h2 ?_
          intro j hj1 hj2 hj3
          exact h3 j hj1 (by omega) hj3

/-- The shift loops and copy loops never change the buffer length. -/
lemma insertShiftLoop_length (index : Int) :
    ∀ fuel : Nat, ∀ i : Int, ∀ buf : List ConsistentHasherNode,
    (insertShiftLoop index fuel i buf).length = buf.length := by
  intro fuel
  induction fuel with
  | zero => intro i buf; simp [insertShiftLoop]
  | succ fuel ih =>
    intro i buf
    simp only [insertShiftLoop]
    split
    · rw [ih]; simp
    · rfl

/-- Length invariance of the resize copy loop of insert. -/
lemma insertCopyLoop_length (old : List ConsistentHasherNode) (index : Int) (cap : Nat) :
    ∀ fuel i : Nat, ∀ new : List ConsistentHasherNode,
    (insertCopyLoop old index cap fuel i new).length = new.length := by
  intro fuel
  induction fuel with
  | zero => intro i new; simp [insertCopyLoop]
  | succ fuel ih =>
    intro i new
    simp only [insertCopyLoop]
    split
    · rw [ih]; simp
    · rfl

/-- Length invariance of the delete shift loop. -/
lemma deleteShiftLoop_length (len : Int) :
    ∀ fuel : Nat, ∀ i : Int, ∀ buf : List ConsistentHasherNode,
    (deleteShiftLoop len fuel i buf).length = buf.length := by
  intro fuel
  induction fuel with
  | zero => intro i buf; simp [deleteShiftLoop]
  | succ fuel ih =>
    intro i buf
    simp only [deleteShiftLoop]
    split
    · rw [ih]; simp
    · rfl

/-- Length invariance of the shrink copy loop of delete. -/
lemma shrinkCopyLoop_length (old : List ConsistentHasherNode) (index : Int) (count : Nat) :
    ∀ fuel i : Nat, ∀ new : List ConsistentHasherNode,
    (shrinkCopyLoop old index count fuel i new).length = new.length := by
  intro fuel
  induction fuel with
  | zero => intro i new; simp [shrinkCopyLoop]
  | succ fuel ih =>
    intro i new
    simp only [shrinkCopyLoop]
    split
    · rw [ih]; simp
    · rfl

/-- Slots at or below `index + 1`, or above the loop counter, are untouched
by the descending insert shift loop. -/
lemma insertShiftLoop_getD_out (index : Int) (h0 : 0 ≤ index) :
    ∀ fuel : Nat, ∀ i : Int, ∀ buf : List ConsistentHasherNode, ∀ j : Nat,
    ((j : Int) ≤ index + 1 ∨ i < (j : Int)) →
    (insertShiftLoop index fuel i buf).getD j zeroNode = buf.getD j zeroNode := by
  intro fuel
  induction fuel with
  | zero => intro i buf j _; simp [insertShiftLoop]
  | succ fuel ih =>
    intro i buf j hj
    simp only [insertShiftLoop]
    split
    · rename_i hcond
      rw [ih (i - 1) _ j (by omega)]
      exact getD_set_other _ _ _ _ _ (by omega)
    · rfl

/-- Inside the shifted region the descending insert shift loop moves every
slot one place to the right: slot `j` ends up holding old slot `j - 1`. -/
lemma insertShiftLoop_getD_in (index : Int) (h0 : 0 ≤ index) :
    ∀ fuel : Nat, ∀ i : Int, ∀ buf : List ConsistentHasherNode,
    (i - (index + 1)).toNat ≤ fuel → i < (buf.length : Int) →
    ∀ j : Nat, index + 1 < (j : Int) → (j : Int) ≤ i →
    (insertShiftLoop index fuel i buf).getD j zeroNode = buf.getD (j - 1) zeroNode := by
  intro fuel
  induction fuel with
  | zero =>
    intro i buf hf _ j hj1 hj2
    omega
  | succ fuel ih =>
    intro i buf hf hlen j hj1 hj2
    have hcond : i > index + 1 := by omega
    simp only [insertShiftLoop]
    rw [if_pos hcond]
    by_cases hji : (j : Int) = i
    · rw [insertShiftLoop_getD_out index h0 fuel (i - 1) _ j (by omega)]
      have hjset : j = i.toNat := by omega
      rw [hjset, getD_set_self _ _ _ _ (by omega)]
      have : (i - 1).toNat = i.toNat - 1 := by omega
      rw [this]
    · rw [ih (i - 1) _ (by omega) (by simp; omega) j hj1 (by omega)]
      exact getD_set_other _ _ _ _ _ (by omega)

/-- Slots equal to `index`, below the loop counter, or above `cap` are
untouched by the resize copy loop. -/
lemma insertCopyLoop_getD_out (old : List ConsistentHasherNode) (index : Int) (cap : Nat) :
    ∀ fuel i : Nat, ∀ new : List ConsistentHasherNode, ∀ j : Nat,
    ((j : Int) = index ∨ j < i ∨ cap < j ∨ (index ≤ (j : Int) ∧ (j : Int) ≤ i)) →
    (insertCopyLoop old index cap fuel i new).getD j zeroNode = new.getD j zeroNode := by
  intro fuel
  induction fuel with
  | zero => intro i new j _; simp [insertCopyLoop]
  | succ fuel ih =>
    intro i new j hj
    simp only [insertCopyLoop]
    split
    · rename_i hcond
      rw [ih (i + 1) _ j (by omega)]
      apply getD_set_other
      split
      · rename_i hti
        omega
      · rename_i hti
        omega
    · rfl

/-- Below `index` the resize copy loop copies slot `j` of the old buffer to
slot `j` of the new buffer. -/
lemma insertCopyLoop_getD_lt (old : List ConsistentHasherNode) (index : Int) (cap : Nat) :
    ∀ fuel i : Nat, ∀ new : List ConsistentHasherNode,
    i + fuel = cap → cap ≤ new.length →
    ∀ j : Nat, i ≤ j → (j : Int) < index → j < cap →
    (insertCopyLoop old index cap fuel i new).getD j zeroNode = old.getD j zeroNode := by
  intro fuel
  induction fuel with
  | zero =>
    intro i new hi _ j hj1 _ hj3
    omega
  | succ fuel ih =>
    intro i new hi hlen j hj1 hj2 hj3
    have hcond : i < cap := by omega
    simp only [insertCopyLoop]
    rw [if_pos hcond]
    by_cases hji : j = i
    · have hti : ¬ ((i : Int) ≥ index ∧ i < cap) := by omega
      rw [insertCopyLoop_getD_out old index cap fuel (i + 1) _ j (by omega)]
      rw [if_neg hti, hji, getD_set_self _ _ _ _ (by omega)]
    · rw [ih (i + 1) _ (by omega) (by simp; omega) j (by omega) hj2 hj3]

/-- From `index` on, the resize copy loop copies old slot `j - 1` to new
slot `j`, leaving the gap at `index` for the new node. -/
lemma insertCopyLoop_getD_gt (old : List ConsistentHasherNode) (index : Int) (cap : Nat) :
    ∀ fuel i : Nat, ∀ new : List ConsistentHasherNode,
    i + fuel = cap → cap < new.length →
    ∀ j : Nat, index < (j : Int) → i < j → j ≤ cap →
    (insertCopyLoop old index cap fuel i new).getD j zeroNode = old.getD (j - 1) zeroNode := by
  intro fuel
  induction fuel with
  | zero =>
    intro i new hi _ j _ hj2 hj3
    omega
  | succ fuel ih =>
    intro i new hi hlen j hj1 hj2 hj3
    have hcond : i < cap := by omega
    simp only [insertCopyLoop]
    rw [if_pos hcond]
    by_cases hji : j = i + 1
    · have hti : (i : Int) ≥ index ∧ i < cap := by omega
      rw [insertCopyLoop_getD_out old index cap fuel (i + 1) _ j (by omega)]
      rw [if_pos hti, hji, getD_set_self _ _ _ _ (by omega)]
      congr 1
    · rw [ih (i + 1) _ (by omega) (by simp; omega) j hj1 (by omega) hj3]

/-- Insert preserves the capacity invariant. -/
lemma capInv_insert (ch : ConsistentHasher) (h : CapInv ch) (x : Nat) :
    CapInv (consistent_hasher_insert_node ch x).2 := by
  obtain ⟨h1, h2, h3⟩ := h
  simp only [consistent_hasher_insert_node]
  split
  · rename_i halloc
    refine ⟨by simp [CONSISTENT_HASHER_INITIAL_CAPACITY], by simp [CONSISTENT_HASHER_INITIAL_CAPACITY], ?_⟩
    intro hfalse
    simp at hfalse
  · rename_i halloc
    split
    · exact ⟨h1, h2, h3⟩
    · split
      · rename_i hfull
        refine ⟨?_, ?_, ?_⟩
        · simp [insertCopyLoop_length]
        · dsimp only
          omega
        · intro hfalse
          simp [Bool.not_eq_false] at halloc
          simp [halloc] at hfalse
      · rename_i hfull
        refine ⟨?_, ?_, ?_⟩
        · simp [insertShiftLoop_length, h1]
        · dsimp only
          omega
        · intro hfalse
          simp [Bool.not_eq_false] at halloc
          simp [halloc] at hfalse

/-- Delete preserves the capacity invariant. -/
lemma capInv_delete (ch : ConsistentHasher) (h : CapInv ch) (x : Nat) :
    CapInv (consistent_hasher_delete_node ch x).2 := by
  obtain ⟨h1, h2, h3⟩ := h
  simp only [consistent_hasher_delete_node]
  split
  · exact ⟨h1, h2, h3⟩
  · split
    · refine ⟨?_, ?_, ?_⟩
      · simp [shrinkCopyLoop_length]
      · dsimp only
        omega
      · intro hfalse
        obtain ⟨hl, hc⟩ := h3 hfalse
        dsimp only
        omega
    · refine ⟨?_, ?_, ?_⟩
      · simp [deleteShiftLoop_length, h1]
      · dsimp only
        omega
      · intro hfalse
        obtain ⟨hl, hc⟩ := h3 hfalse
        dsimp only
        omega

/-- The freshly initialized ring satisfies the capacity invariant. -/
lemma capInv_init (ring_size : Nat) : CapInv (consistent_hasher_init ring_size) := by
  refine ⟨rfl, ?_, fun _ => ⟨rfl, rfl⟩⟩
  left
  exact le_refl 0

/-- Running any operation sequence preserves the capacity invariant. -/
lemma capInv_runOps (ops : List RingOp) :
    ∀ ch : ConsistentHasher, CapInv ch → CapInv (runOps ch ops) := by
  induction ops with
  | nil => intro ch h; exact h
  | cons op rest ih =>
    intro ch h
    cases op with
    | insert x => exact ih _ (capInv_insert ch h x)
    | delete x => exact ih _ (capInv_delete ch h x)

/-- Every reachable state satisfies the capacity invariant. -/
lemma reachable_capInv {ring_size : Nat} {ch : ConsistentHasher}
    (h : Reachable ring_size ch) : CapInv ch := by
  obtain ⟨ops, rfl⟩ := h
  exact capInv_runOps ops _ (capInv_init ring_size)

/-- Insert changes the capacity only when it found the store exactly full
(this covers the very first allocation, where both counters are zero). -/
lemma insert_capacity_change (ch : ConsistentHasher) (hinv : CapInv ch) (x : Nat)
    (hne : (consistent_hasher_insert_node ch x).2.nodes_capacity ≠ ch.nodes_capacity) :
    ch.nodes_len = ch.nodes_capacity := by
  obtain ⟨h1, h2, h3⟩ := hinv
  simp only [consistent_hasher_insert_node] at hne
  split at hne
  · rename_i halloc
    obtain ⟨hl, hc⟩ := h3 halloc
    omega
  · split at hne
    · exact absurd rfl hne
    · split at hne
      · rename_i hfull
        exact hfull.symm
      · exact absurd rfl hne

/-- Delete reallocates the buffer exactly when the search succeeded and the
decremented count equals half the capacity; the new capacity then equals
the new count, and in every other case the capacity is untouched. -/
lemma delete_capacity_change (ch : ConsistentHasher) (x : Nat) :
    ((consistent_hasher_binary_search ch x).1 = true ∧
        (ch.nodes_len : Int) - 1 = Int.tdiv (ch.nodes_capacity : Int) 2 →
      (consistent_hasher_delete_node ch x).2.nodes_capacity = ch.nodes_len - 1 ∧
      (consistent_hasher_delete_node ch x).2.nodes_len = ch.nodes_len - 1) ∧
    (¬ ((consistent_hasher_binary_search ch x).1 = true ∧
        (ch.nodes_len : Int) - 1 = Int.tdiv (ch.nodes_capacity : Int) 2) →
      (consistent_hasher_delete_node ch x).2.nodes_capacity = ch.nodes_capacity) := by
  constructor
  · rintro ⟨hfound, hhalf⟩
    simp only [consistent_hasher_delete_node]
    rw [if_neg (by simp [hfound]), if_pos hhalf]
    exact ⟨rfl, rfl⟩
  · intro hnot
    simp only [consistent_hasher_delete_node]
    by_cases hfound : (consistent_hasher_binary_search ch x).1 = false
    · rw [if_pos hfound]
    · rw [if_neg hfound]
      rw [if_neg ?_]
      intro hhalf
      exact hnot ⟨by simpa using hfound, hhalf⟩

/-- Deleting a position that no stored node occupies is a no-op returning
`OK`: the search cannot report `true` without a genuine match. -/
lemma delete_noop_of_absent (ch : ConsistentHasher) (x : Nat)
    (habs : ∀ j : Nat, j < ch.nodes_len →
      (ch.nodes.getD j zeroNode).position ≠ x % ch.ring_size) :
    consistent_hasher_delete_node ch x = (ConsistentHasherError.OK, ch) := by
  have hf : (consistent_hasher_binary_search ch x).1 = false := by
    by_contra h
    rw [Bool.not_eq_false] at h
    simp only [consistent_hasher_binary_search] at h
    obtain ⟨j, hj, hpos⟩ :=
      bs_found_exists ch.nodes (x % ch.ring_size) ch.nodes_len (ch.nodes_len + 1) 0
        ((ch.nodes_len : Int) - 1) (by omega) (by omega) h
    exact habs j hj hpos
  simp only [consistent_hasher_delete_node]
  rw [if_pos hf]

/-- Top-level wrapper of `bs_finds_at` for the call shape used by the
library: full window `[0, len1 - 1]` and fuel `len1 + 1`. -/
lemma bs_true_of_planted (nodes' : List ConsistentHasherNode) (p : Nat) (len1 : Nat) (idx L : Int)
    (h0 : 0 ≤ idx) (hidxlen : idx ≤ (len1 : Int) - 1) (hstopL : (len1 : Int) - 1 ≤ L)
    (hidxL : idx < L)
    (h1 : ∀ j : Nat, (j : Int) < idx → (nodes'.getD j zeroNode).position < p)
    (h2 : (nodes'.getD idx.toNat zeroNode).position = p)
    (h3 : ∀ j : Nat, idx < (j : Int) → (j : Int) ≤ (len1 : Int) - 1 → (j : Int) ≠ L →
      p < (nodes'.getD j zeroNode).position) :
    (binarySearchLoop nodes' p (len1 + 1) 0 ((len1 : Int) - 1)).1 = true :=
  bs_finds_at nodes' p (len1 + 1) 0 ((len1 : Int) - 1) idx L (by omega) (by omega) h0 hidxlen
    hstopL hidxL h1 h2 h3

/-- A second insert whose search succeeds returns `NODE_PRESENT` and leaves
the state untouched. -/
lemma insert_second_insert (post : ConsistentHasher) (b : Nat)
    (halloc : post.allocated = true)
    (hfound : (consistent_hasher_binary_search post b).1 = true) :
    consistent_hasher_insert_node post b = (ConsistentHasherError.NODE_PRESENT, post) := by
  simp only [consistent_hasher_insert_node]
  rw [if_neg (by simp [halloc]), if_pos hfound]

/-- Core collision-rejection property: on a well-formed, sorted ring whose
derived position for `a` is free, inserting `a` succeeds, and a second
insert of any `b` colliding with `a` on `identifier mod ring_size` fails
with `NODE_PRESENT` leaving the ring unchanged — even though the first
insert may have corrupted other entries, the new node itself is always
found again by the search. -/
lemma insert_collision_core (ch : ConsistentHasher) (a b : Nat)
    (hwf : RingWF ch) (hsort : SortedNodes ch)
    (hab : a % ch.ring_size = b % ch.ring_size)
    (habs : ∀ j : Nat, j < ch.nodes_len →
      (ch.nodes.getD j zeroNode).position ≠ a % ch.ring_size) :
    (consistent_hasher_insert_node ch a).1 = ConsistentHasherError.OK ∧
    consistent_hasher_insert_node (consistent_hasher_insert_node ch a).2 b =
      (ConsistentHasherError.NODE_PRESENT, (consistent_hasher_insert_node ch a).2) := by
  obtain ⟨hlen_eq, hlen_le, hunalloc, halloc1⟩ := hwf
  cases halloc2 : ch.allocated with
  | false =>
    have hpost : consistent_hasher_insert_node ch a =
        (ConsistentHasherError.OK,
          { ch with
              nodes := (List.replicate CONSISTENT_HASHER_INITIAL_CAPACITY zeroNode).set 0
                { hash := a, position := a % ch.ring_size },
              nodes_capacity := CONSISTENT_HASHER_INITIAL_CAPACITY,
              nodes_len := 1, allocated := true }) := by
      simp only [consistent_hasher_insert_node]
      rw [if_pos halloc2]
    rw [hpost]
    refine ⟨rfl, ?_⟩
    apply insert_second_insert _ b rfl
    refine bs_true_of_planted _ (b % ch.ring_size) 1 0 1 (by omega) (by omega) (by omega)
      (by omega) ?_ ?_ ?_
    · intro j hj
      exact absurd hj (by omega)
    · dsimp only
      rw [show (0 : Int).toNat = 0 from rfl]
      rw [getD_set_self _ _ _ _ (by simp [CONSISTENT_HASHER_INITIAL_CAPACITY])]
      exact hab
    · intro j hj1 hj2 _
      exfalso
      omega
  | true =>
    have hcap1 : 1 ≤ ch.nodes_capacity := halloc1 halloc2
    obtain ⟨k, hbsk, hk0, hklen, hkc1, hkc2⟩ :=
      bs_miss_char ch.nodes (a % ch.ring_size) ch.nodes_len hsort habs (ch.nodes_len + 1) 0
        ((ch.nodes_len : Int) - 1) (by omega) (by omega) (by omega) (by omega)
        (fun j hj _ => absurd hj (by omega))
        (fun j hj hjlen => absurd hjlen (by omega))
    have hbs : consistent_hasher_binary_search ch a = (false, k) := hbsk
    by_cases hfull : ch.nodes_capacity = ch.nodes_len
    · have hpost : consistent_hasher_insert_node ch a =
          (ConsistentHasherError.OK,
            { ch with
                nodes := (insertCopyLoop ch.nodes k ch.nodes_capacity ch.nodes_capacity 0
                    (List.replicate (ch.nodes_capacity * 2) zeroNode)).set k.toNat
                  { hash := a, position := a % ch.ring_size },
                nodes_capacity := ch.nodes_capacity * 2,
                nodes_len := ch.nodes_len + 1 }) := by
        simp only [consistent_hasher_insert_node]
        rw [if_neg (by simp [halloc2]), hbs, if_neg (by simp), if_pos hfull]
      rw [hpost]
      refine ⟨rfl, ?_⟩
      refine insert_second_insert _ b ?_ ?_
      · exact halloc2
      refine bs_true_of_planted _ (b % ch.ring_size) (ch.nodes_len + 1) k
        ((ch.nodes_len : Int) + 1) hk0 (by omega) (by omega) (by omega) ?_ ?_ ?_
      · intro j hj
        dsimp only
        rw [← hab, getD_set_other _ _ _ _ _ (by omega)]
        rw [insertCopyLoop_getD_lt ch.nodes k ch.nodes_capacity ch.nodes_capacity 0 _ (by omega)
          (by simp only [List.length_replicate]; omega) j (by omega) hj (by omega)]
        exact hkc1 j hj (by omega)
      · dsimp only
        rw [getD_set_self _ _ _ _ ?_]
        · exact hab
        · rw [insertCopyLoop_length, List.length_replicate]
          omega
      · intro j hj1 hj2 hj3
        dsimp only
        rw [← hab, getD_set_other _ _ _ _ _ (by omega)]
        rw [insertCopyLoop_getD_gt ch.nodes k ch.nodes_capacity ch.nodes_capacity 0 _ (by omega)
          (by simp only [List.length_replicate]; omega) j hj1 (by omega) (by omega)]
        exact hkc2 (j - 1) (by omega) (by omega)
    · have hltcap : ch.nodes_len < ch.nodes_capacity := by omega
      have hpost : consistent_hasher_insert_node ch a =
          (ConsistentHasherError.OK,
            { ch with
                nodes := (insertShiftLoop k ch.nodes_len ((ch.nodes_len : Int) - 1)
                    ch.nodes).set k.toNat { hash := a, position := a % ch.ring_size },
                nodes_len := ch.nodes_len + 1 }) := by
        simp only [consistent_hasher_insert_node]
        rw [if_neg (by simp [halloc2]), hbs, if_neg (by simp), if_neg hfull]
      rw [hpost]
      refine ⟨rfl, ?_⟩
      refine insert_second_insert _ b ?_ ?_
      · exact halloc2
      by_cases hkend : k = (ch.nodes_len : Int)
      · refine bs_true_of_planted _ (b % ch.ring_size) (ch.nodes_len + 1) k
          ((ch.nodes_len : Int) + 1) hk0 (by omega) (by omega) (by omega) ?_ ?_ ?_
        · intro j hj
          dsimp only
          rw [← hab, getD_set_other _ _ _ _ _ (by omega)]
          rw [insertShiftLoop_getD_out k hk0 _ _ _ j (by omega)]
          exact hkc1 j hj (by omega)
        · dsimp only
          rw [getD_set_self _ _ _ _ ?_]
          · exact hab
          · rw [insertShiftLoop_length]
            omega
        · intro j hj1 hj2 _
          exfalso
          omega
      · refine bs_true_of_planted _ (b % ch.ring_size) (ch.nodes_len + 1) k
          ((ch.nodes_len : Int)) hk0 (by omega) (by omega) (by omega) ?_ ?_ ?_
        · intro j hj
          dsimp only
          rw [← hab, getD_set_other _ _ _ _ _ (by omega)]
          rw [insertShiftLoop_getD_out k hk0 _ _ _ j (by omega)]
          exact hkc1 j hj (by omega)
        · dsimp only
          rw [getD_set_self _ _ _ _ ?_]
          · exact hab
          · rw [insertShiftLoop_length]
            omega
        · intro j hj1 hj2 hj3
          dsimp only
          rw [← hab, getD_set_other _ _ _ _ _ (by omega)]
          by_cases hj4 : (j : Int) = k + 1
          · rw [insertShiftLoop_getD_out k hk0 _ _ _ j (by omega)]
            exact hkc2 j (by omega) (by omega)
          · rw [insertShiftLoop_getD_in k hk0 ch.nodes_len ((ch.nodes_len : Int) - 1) _
              (by omega) (by omega) j (by omega) (by omega)]
            exact hkc2 (j - 1) (by omega) (by omega)


/-!
Claim theorems.  Each theorem below settles one claim of the specification
against the embedding above.
-/

/-- Claim C1 (code bug): the sortedness invariant fails on the code.  From
the empty ring, inserting hash 2 and then hash 1 takes the in-place shift
path of insert, whose loop `for (i = len-1; i > index+1; --i)` starts one
slot too low and stops one slot too early: the entry at the insertion index
is overwritten instead of shifted, the zeroed slot `nodes[1]` becomes a live
entry, and the resulting positions are `[1, 0]` — not strictly ascending,
and node 2 is lost. -/
theorem insert_sequence_breaks_sortedness :
    (runOps (consistent_hasher_init 1024) [RingOp.insert 2, RingOp.insert 1]).nodes_len = 2 ∧
    ((runOps (consistent_hasher_init 1024)
      [RingOp.insert 2, RingOp.insert 1]).nodes.getD 0 zeroNode).position = 1 ∧
    ((runOps (consistent_hasher_init 1024)
      [RingOp.insert 2, RingOp.insert 1]).nodes.getD 1 zeroNode).position = 0 ∧
    ¬ SortedNodes (runOps (consistent_hasher_init 1024) [RingOp.insert 2, RingOp.insert 1]) := by
  refine ⟨by decide, by decide, by decide, ?_⟩
  intro h
  exact absurd (h 1 (by decide) 0 (by decide)) (by decide)

/-- Claim C2 (code bug): on an exact interior match the locator reports the
lower bound `start` of the final search window, not the matching index.  On
the sorted ring with positions `[10, 20, 30]`, searching hash 20 returns
`(true, 0)` although the matching index is 1 and entry 0 has position 10. -/
theorem binary_search_match_reports_window_start :
    SortedNodes (runOps (consistent_hasher_init 1024)
      [RingOp.insert 10, RingOp.insert 20, RingOp.insert 30]) ∧
    consistent_hasher_binary_search (runOps (consistent_hasher_init 1024)
      [RingOp.insert 10, RingOp.insert 20, RingOp.insert 30]) 20 = (true, 0) ∧
    ((runOps (consistent_hasher_init 1024)
      [RingOp.insert 10, RingOp.insert 20, RingOp.insert 30]).nodes.getD 1 zeroNode).position = 20 ∧
    ((runOps (consistent_hasher_init 1024)
      [RingOp.insert 10, RingOp.insert 20, RingOp.insert 30]).nodes.getD 0 zeroNode).position = 10 := by
  refine ⟨by decide, by decide, by decide, by decide⟩

/-- Claim C3 (code bug): the no-resize shift path of insert corrupts the
store.  Inserting hash 15 into the sorted ring `{10, 20, 30}` (capacity 8)
returns `OK` and bumps the count to 4, but node 20 vanishes, a zeroed slot
becomes a live entry, and the array is no longer sorted. -/
theorem insert_shift_path_loses_node :
    (∀ j : Nat, j < (runOps (consistent_hasher_init 1024)
        [RingOp.insert 10, RingOp.insert 20, RingOp.insert 30]).nodes_len →
      ((runOps (consistent_hasher_init 1024)
        [RingOp.insert 10, RingOp.insert 20, RingOp.insert 30]).nodes.getD j zeroNode).position
        ≠ 15 % 1024) ∧
    (consistent_hasher_insert_node (runOps (consistent_hasher_init 1024)
      [RingOp.insert 10, RingOp.insert 20, RingOp.insert 30]) 15).1 = ConsistentHasherError.OK ∧
    (runOps (consistent_hasher_init 1024)
      [RingOp.insert 10, RingOp.insert 20, RingOp.insert 30, RingOp.insert 15]).nodes_len = 4 ∧
    (∀ i : Nat, i < 4 →
      ((runOps (consistent_hasher_init 1024)
        [RingOp.insert 10, RingOp.insert 20, RingOp.insert 30,
         RingOp.insert 15]).nodes.getD i zeroNode).hash ≠ 20) ∧
    ¬ SortedNodes (runOps (consistent_hasher_init 1024)
      [RingOp.insert 10, RingOp.insert 20, RingOp.insert 30, RingOp.insert 15]) := by
  refine ⟨by decide, by decide, by decide, by decide, ?_⟩
  intro h
  exact absurd (h 3 (by decide) 2 (by decide)) (by decide)

/-- Claim C4 (code bug): delete removes the wrong entries.  Deleting hash 20
from the sorted ring `{10, 20, 30}` (capacity 8) takes the shift path with
the locator's wrong index 0 and the off-by-one loop bound `i < len - 2`; the
result has count 2 with both surviving slots equal to node 20 — nodes 10 and
30 are gone and the deleted node 20 is still present (twice). -/
theorem delete_shift_path_removes_wrong_node :
    (runOps (consistent_hasher_init 1024)
      [RingOp.insert 10, RingOp.insert 20, RingOp.insert 30, RingOp.delete 20]).nodes_len = 2 ∧
    (runOps (consistent_hasher_init 1024)
      [RingOp.insert 10, RingOp.insert 20, RingOp.insert 30,
       RingOp.delete 20]).nodes.getD 0 zeroNode = { hash := 20, position := 20 } ∧
    (runOps (consistent_hasher_init 1024)
      [RingOp.insert 10, RingOp.insert 20, RingOp.insert 30,
       RingOp.delete 20]).nodes.getD 1 zeroNode = { hash := 20, position := 20 } := by
  refine ⟨by decide, by decide, by decide⟩

/-- Claim C5 (code bug): resolution is wrong on exact interior matches.  On
the sorted ring `{10, 20, 30}`, resolving an item with hash 20 should return
the node at the smallest position `≥ 20`, which is node 20 itself; the code
returns node 10, because the locator reports index 0 on the match and the
resolver then compares against `nodes[0]`. -/
theorem resolve_interior_match_returns_wrong_node :
    consistent_hasher_get_node_of (runOps (consistent_hasher_init 1024)
      [RingOp.insert 10, RingOp.insert 20, RingOp.insert 30]) 20 = 10 ∧
    (runOps (consistent_hasher_init 1024)
      [RingOp.insert 10, RingOp.insert 20, RingOp.insert 30]).nodes.getD 1 zeroNode
      = { hash := 20, position := 20 } := by
  refine ⟨by decide, by decide⟩

/-- Claim C6 counterexample: deleting an identifier that was never inserted
can change the ring.  With `ring_size = 10`, insert 5 (position 5) and then
delete 15: identifier 15 is held by no node, yet its derived position
`15 mod 10 = 5` matches node 5, so the delete removes node 5 and the count
drops from 1 to 0. -/
theorem delete_foreign_identifier_changes_ring :
    (∀ j : Nat, j < (runOps (consistent_hasher_init 10) [RingOp.insert 5]).nodes_len →
      ((runOps (consistent_hasher_init 10) [RingOp.insert 5]).nodes.getD j zeroNode).hash ≠ 15) ∧
    (runOps (consistent_hasher_init 10) [RingOp.insert 5]).nodes_len = 1 ∧
    (consistent_hasher_delete_node (runOps (consistent_hasher_init 10)
      [RingOp.insert 5]) 15).1 = ConsistentHasherError.OK ∧
    (consistent_hasher_delete_node (runOps (consistent_hasher_init 10)
      [RingOp.insert 5]) 15).2.nodes_len = 0 := by
  refine ⟨by decide, by decide, by decide, by decide⟩

/-- Claim C6 as amended: deleting an identifier whose derived position
`identifier mod ring_size` is occupied by no current node returns success
and leaves the ring (count and all entries) unchanged. -/
theorem delete_absent_position_noop (ch : ConsistentHasher) (x : Nat)
    (habs : ∀ j : Nat, j < ch.nodes_len →
      (ch.nodes.getD j zeroNode).position ≠ x % ch.ring_size) :
    consistent_hasher_delete_node ch x = (ConsistentHasherError.OK, ch) :=
  delete_noop_of_absent ch x habs

/-- Witness for the amended C6 theorem at a concrete ring and identifier. -/
theorem delete_absent_position_noop_witness :
    consistent_hasher_delete_node (runOps (consistent_hasher_init 10) [RingOp.insert 5]) 7 =
      (ConsistentHasherError.OK, runOps (consistent_hasher_init 10) [RingOp.insert 5]) :=
  delete_absent_position_noop (runOps (consistent_hasher_init 10) [RingOp.insert 5]) 7 (by decide)

/-- Claim C7 counterexample: on a ring whose node array is not sorted, the
first insert of a colliding pair can succeed while the second insert also
returns `OK` (not `NODE_PRESENT`) and mutates the ring: the broken shift of
the first insert places the new node where the binary search no longer finds
it.  The identifiers 25 and 125 collide modulo `ring_size = 100`. -/
theorem insert_collision_accepted_on_unsorted_ring :
    25 % 100 = 125 % 100 ∧
    (∀ j : Nat, j < (2 : Nat) →
      (([⟨30, 30⟩, ⟨10, 10⟩, zeroNode, zeroNode] :
        List ConsistentHasherNode).getD j zeroNode).position ≠ 25 % 100) ∧
    (consistent_hasher_insert_node
      { ring_size := 100, nodes := [⟨30, 30⟩, ⟨10, 10⟩, zeroNode, zeroNode],
        nodes_len := 2, nodes_capacity := 4, allocated := true } 25).1
      = ConsistentHasherError.OK ∧
    (consistent_hasher_insert_node (consistent_hasher_insert_node
      { ring_size := 100, nodes := [⟨30, 30⟩, ⟨10, 10⟩, zeroNode, zeroNode],
        nodes_len := 2, nodes_capacity := 4, allocated := true } 25).2 125).1
      = ConsistentHasherError.OK ∧
    (consistent_hasher_insert_node (consistent_hasher_insert_node
      { ring_size := 100, nodes := [⟨30, 30⟩, ⟨10, 10⟩, zeroNode, zeroNode],
        nodes_len := 2, nodes_capacity := 4, allocated := true } 25).2 125).2
      ≠ (consistent_hasher_insert_node
      { ring_size := 100, nodes := [⟨30, 30⟩, ⟨10, 10⟩, zeroNode, zeroNode],
        nodes_len := 2, nodes_capacity := 4, allocated := true } 25).2 := by
  refine ⟨by decide, by decide, by decide, by decide, by decide⟩

/-- Claim C7 as amended: on a well-formed ring whose node array is strictly
sorted, inserting `a` at a free derived position succeeds, and a subsequent
insert of any `b` with `a mod ring_size = b mod ring_size` fails with
`NODE_PRESENT` and leaves the ring unchanged. -/
theorem insert_collision_rejected (ch : ConsistentHasher) (a b : Nat)
    (hwf : RingWF ch) (hsort : SortedNodes ch)
    (hab : a % ch.ring_size = b % ch.ring_size)
    (habs : ∀ j : Nat, j < ch.nodes_len →
      (ch.nodes.getD j zeroNode).position ≠ a % ch.ring_size) :
    (consistent_hasher_insert_node ch a).1 = ConsistentHasherError.OK ∧
    (consistent_hasher_insert_node (consistent_hasher_insert_node ch a).2 b).1 =
      ConsistentHasherError.NODE_PRESENT ∧
    (consistent_hasher_insert_node (consistent_hasher_insert_node ch a).2 b).2 =
      (consistent_hasher_insert_node ch a).2 := by
  obtain ⟨h1, h2⟩ := insert_collision_core ch a b hwf hsort hab habs
  exact ⟨h1, by rw [h2], by rw [h2]⟩

/-- Witness for the amended C7 theorem: the sorted ring `{10, 20}` over
`ring_size = 100`, with colliding identifiers 35 and 135. -/
theorem insert_collision_rejected_witness :
    (consistent_hasher_insert_node (runOps (consistent_hasher_init 100)
      [RingOp.insert 10, RingOp.insert 20]) 35).1 = ConsistentHasherError.OK ∧
    (consistent_hasher_insert_node (consistent_hasher_insert_node
      (runOps (consistent_hasher_init 100) [RingOp.insert 10, RingOp.insert 20]) 35).2 135).1 =
      ConsistentHasherError.NODE_PRESENT ∧
    (consistent_hasher_insert_node (consistent_hasher_insert_node
      (runOps (consistent_hasher_init 100) [RingOp.insert 10, RingOp.insert 20]) 35).2 135).2 =
      (consistent_hasher_insert_node (runOps (consistent_hasher_init 100)
        [RingOp.insert 10, RingOp.insert 20]) 35).2 :=
  insert_collision_rejected (runOps (consistent_hasher_init 100)
    [RingOp.insert 10, RingOp.insert 20]) 35 135 (by decide) (by decide) (by decide) (by decide)

/-- Claim C8 counterexample: `count ≤ capacity` fails at a reachable state.
Inserting hashes 1..5 and deleting them again shrinks the buffer to
capacity 0 (`calloc(0)` on deleting the last node); the next insert finds
`capacity == count` and doubles the capacity to `0 * 2 = 0` while writing
the new node and incrementing the count to 1, so `count = 1 > 0 =
capacity`. -/
theorem capacity_drops_below_count :
    Reachable 1024 (runOps (consistent_hasher_init 1024)
      [RingOp.insert 1, RingOp.insert 2, RingOp.insert 3, RingOp.insert 4, RingOp.insert 5,
       RingOp.delete 5, RingOp.delete 4, RingOp.delete 3, RingOp.delete 2, RingOp.delete 1,
       RingOp.insert 7]) ∧
    (runOps (consistent_hasher_init 1024)
      [RingOp.insert 1, RingOp.insert 2, RingOp.insert 3, RingOp.insert 4, RingOp.insert 5,
       RingOp.delete 5, RingOp.delete 4, RingOp.delete 3, RingOp.delete 2, RingOp.delete 1,
       RingOp.insert 7]).nodes_len = 1 ∧
    (runOps (consistent_hasher_init 1024)
      [RingOp.insert 1, RingOp.insert 2, RingOp.insert 3, RingOp.insert 4, RingOp.insert 5,
       RingOp.delete 5, RingOp.delete 4, RingOp.delete 3, RingOp.delete 2, RingOp.delete 1,
       RingOp.insert 7]).nodes_capacity = 0 :=
  ⟨⟨[RingOp.insert 1, RingOp.insert 2, RingOp.insert 3, RingOp.insert 4, RingOp.insert 5,
     RingOp.delete 5, RingOp.delete 4, RingOp.delete 3, RingOp.delete 2, RingOp.delete 1,
     RingOp.insert 7], rfl⟩, by decide, by decide⟩

/-- Claim C8 as amended: on every reachable state, `count ≤ capacity` holds
unless the capacity has degenerated to zero through the shrink of a one-node
ring; insert changes the capacity only when it finds `count = capacity`
(covering the initial allocation, where both are zero); after a delete the
buffer is reallocated exactly when the search succeeded and the new count
equals `capacity / 2`, the new capacity then equals the new count, and
otherwise the capacity is unchanged. -/
theorem capacity_management (rs : Nat) (s : ConsistentHasher) (h : Reachable rs s) :
    (s.nodes_len ≤ s.nodes_capacity ∨ s.nodes_capacity = 0) ∧
    (∀ x : Nat, (consistent_hasher_insert_node s x).2.nodes_capacity ≠ s.nodes_capacity →
      s.nodes_len = s.nodes_capacity) ∧
    (∀ x : Nat,
      ((consistent_hasher_binary_search s x).1 = true ∧
          (s.nodes_len : Int) - 1 = Int.tdiv (s.nodes_capacity : Int) 2 →
        (consistent_hasher_delete_node s x).2.nodes_capacity = s.nodes_len - 1 ∧
        (consistent_hasher_delete_node s x).2.nodes_len = s.nodes_len - 1) ∧
      (¬ ((consistent_hasher_binary_search s x).1 = true ∧
          (s.nodes_len : Int) - 1 = Int.tdiv (s.nodes_capacity : Int) 2) →
        (consistent_hasher_delete_node s x).2.nodes_capacity = s.nodes_capacity)) := by
  have hinv := reachable_capInv h
  exact ⟨hinv.2.1, fun x => insert_capacity_change s hinv x, fun x => delete_capacity_change s x⟩

/-- Witness for the amended C8 theorem at a concrete reachable state. -/
theorem capacity_management_witness :
    (runOps (consistent_hasher_init 5) [RingOp.insert 3]).nodes_len ≤
      (runOps (consistent_hasher_init 5) [RingOp.insert 3]).nodes_capacity ∨
    (runOps (consistent_hasher_init 5) [RingOp.insert 3]).nodes_capacity = 0 :=
  (capacity_management 5 (runOps (consistent_hasher_init 5) [RingOp.insert 3])
    ⟨[RingOp.insert 3], rfl⟩).1

/-- Claim C9 (code bug): insert–delete–insert is not a round trip.  On the
sorted ring `{10, 20, 30}` with the free position 15, a single insert of 15
yields 4 entries, while insert–delete–insert of 15 yields only 3 (the
intermediate buggy delete removes node 10 and duplicates node 30, and the
final insert is rejected because position 15 is still present), so the two
node sets differ. -/
theorem insert_delete_insert_not_roundtrip :
    (∀ j : Nat, j < (runOps (consistent_hasher_init 1024)
        [RingOp.insert 10, RingOp.insert 20, RingOp.insert 30]).nodes_len →
      ((runOps (consistent_hasher_init 1024)
        [RingOp.insert 10, RingOp.insert 20, RingOp.insert 30]).nodes.getD j zeroNode).position
        ≠ 15 % 1024) ∧
    (runOps (consistent_hasher_init 1024)
      [RingOp.insert 10, RingOp.insert 20, RingOp.insert 30, RingOp.insert 15]).nodes_len = 4 ∧
    (runOps (consistent_hasher_init 1024)
      [RingOp.insert 10, RingOp.insert 20, RingOp.insert 30, RingOp.insert 15,
       RingOp.delete 15, RingOp.insert 15]).nodes_len = 3 := by
  refine ⟨by decide, by decide, by decide⟩

/-- Claim C10: `ring_size = 0` is accepted unchecked by `init`, and every
derived-position computation divides by `ring_size` unguarded; under the
(unstated) precondition `ring_size > 0` the guarded computation never takes
its error branch and agrees with the unguarded `mod` used by the locator. -/
theorem ring_size_zero_unchecked_precondition :
    (consistent_hasher_init 0).ring_size = 0 ∧
    (∀ h rs : Nat, rs = 0 → derivedPosition h rs = none) ∧
    (∀ h rs : Nat, 0 < rs → derivedPosition h rs = some (h % rs)) ∧
    (∀ (ch : ConsistentHasher) (x : Nat), 0 < ch.ring_size →
      consistent_hasher_binary_search ch x =
        binarySearchLoop ch.nodes ((derivedPosition x ch.ring_size).getD 0)
          (ch.nodes_len + 1) 0 ((ch.nodes_len : Int) - 1)) := by
  refine ⟨rfl, ?_, ?_, ?_⟩
  · intro h rs hrs
    simp [derivedPosition, hrs]
  · intro h rs hrs
    rw [derivedPosition, if_neg (by omega)]
  · intro ch x hrs
    rw [derivedPosition, if_neg (by omega)]
    rfl

/-- Witness for the C10 theorem at concrete values. -/
theorem ring_size_zero_unchecked_precondition_witness :
    derivedPosition 5 3 = some (5 % 3) :=
  ring_size_zero_unchecked_precondition.2.2.1 5 3 (by decide)
